import Mathlib

/-!
Shallow embedding of the gitmaster scan/classify/preview/move pipeline.

Every definition is translated from the TypeScript source of the repository
(`src/lib/utils/path.ts`, `src/lib/services/scanner.ts`,
`src/lib/actions/triage.ts`, `src/lib/actions/repositories.ts`, the scan
action, and the git discovery walker).  JavaScript strings are modelled as
Lean `String` over their character lists; `string | null` becomes
`Option String`; JavaScript truthiness of a nullable string ("" and null are
both falsy) is modelled explicitly.  Asynchronous filesystem/database code is
modelled by explicit state passing: the filesystem as a list of existing
paths plus an event trace, the record store as a list of records.
-/

namespace Gitmaster

/-- Character-level membership test used by the path helpers: a separator is
either a forward or a backward slash (the source treats the class
`[/\\]`). -/
def isSlash (c : Char) : Bool := c = '/' || c = '\\'

/-- ASCII lower-casing of a character, modelling JavaScript
`String.prototype.toLowerCase` on the ASCII inputs the program handles. -/
def lowerChar (c : Char) : Char :=
  if 'A' ≤ c && c ≤ 'Z' then Char.ofNat (c.toNat + 32) else c

/-- ASCII lower-casing of a string (JS `.toLowerCase()`). -/
def lowerStr (s : String) : String := ⟨s.toList.map lowerChar⟩

/-- Substring test on character lists: JS `String.prototype.includes`. -/
def containsSubList (pat : List Char) : List Char → Bool
  | [] => pat.isEmpty
  | c :: t => pat.isPrefixOf (c :: t) || containsSubList pat t

/-- JS `s.includes(pat)`. -/
def jsIncludes (s pat : String) : Bool := containsSubList pat.toList s.toList

/-- JS `s.startsWith(pat)`. -/
def jsStartsWith (s pat : String) : Bool := pat.toList.isPrefixOf s.toList

/-- JS `s.endsWith(pat)`. -/
def jsEndsWith (s pat : String) : Bool := pat.toList.isSuffixOf s.toList

/-- Splitting of a character list at every occurrence of a separator
character, with JS `String.prototype.split` semantics (leading, trailing and
adjacent separators produce empty fields). -/
def splitChar (sep : Char) : List Char → List (List Char)
  | [] => [[]]
  | c :: t =>
    let r := splitChar sep t
    if c = sep then [] :: r
    else
      match r with
      | [] => [[c]]
      | h :: rest => (c :: h) :: rest

/-- JS `s.split('/')` on strings. -/
def splitSlash (s : String) : List String :=
  (splitChar '/' s.toList).map fun l => (⟨l⟩ : String)

/-- Joining of strings with a separator, modelling JS `Array.prototype.join`. -/
def joinWith (sep : String) : List String → String
  | [] => ""
  | s :: rest =>
    match rest with
    | [] => s
    | _ :: _ => s ++ sep ++ joinWith sep rest

/-- JavaScript truthiness of a `string | null` value: `null` and the empty
string are the falsy cases. -/
def jsTruthy : Option String → Bool
  | none => false
  | some s => s ≠ ""

/-- Source `normalizeWindowsPath` (src/lib/utils/path.ts): replaces every
backslash with a forward slash. -/
def normalizeWindowsPath (inputPath : String) : String :=
  ⟨inputPath.toList.map fun c => if c = '\\' then '/' else c⟩

/-- Collapses every maximal run of slash characters (forward or backward)
into a single forward slash; the `.replace(/[/\\]+/g, '/')` step of
`joinPaths`. -/
def collapseSlashes : List Char → List Char
  | [] => []
  | [c] => if isSlash c then ['/'] else [c]
  | c :: d :: t =>
    if isSlash c && isSlash d then collapseSlashes (d :: t)
    else (if isSlash c then '/' else c) :: collapseSlashes (d :: t)

/-- Drops trailing slash characters, the `.replace(/[/\\]+$/, '')` applied to
all but the last argument of `joinPaths`. -/
def stripTrailingSlashes (s : String) : String :=
  ⟨(s.toList.reverse.dropWhile (fun c => isSlash c)).reverse⟩

/-- Source `joinPaths` (src/lib/utils/path.ts): strips trailing slashes from
all but the last part, joins with `/`, and collapses slash runs. -/
def joinPaths (parts : List String) : String :=
  let stripped := (parts.enum.map fun p =>
    if p.1 < parts.length - 1 then stripTrailingSlashes p.2 else p.2)
  ⟨collapseSlashes (joinWith "/" stripped).toList⟩

/-- Source `getDriveLetter` (src/lib/utils/path.ts): the match of
`/^([A-Za-z]):/` on the normalized path, upper-cased. -/
def getDriveLetter (inputPath : String) : Option Char :=
  match (normalizeWindowsPath inputPath).toList with
  | c :: ':' :: _ => if c.isAlpha then some c.toUpper else none
  | _ => none

/-- Source `isSameDrive` (src/lib/utils/path.ts): both paths carry a drive
letter and the letters agree; a path without a drive letter is never on the
same drive as anything. -/
def isSameDrive (path1 path2 : String) : Bool :=
  match getDriveLetter path1, getDriveLetter path2 with
  | some d1, some d2 => d1 = d2
  | _, _ => false

/-- Source `getRepoNameFromPath` (src/lib/utils/path.ts): last non-empty
`/`-separated segment of the normalized path, defaulting to `"unknown"`. -/
def getRepoNameFromPath (repoPath : String) : String :=
  let parts := (splitSlash (normalizeWindowsPath repoPath)).filter (· ≠ "")
  (parts.getLast?).getD "unknown"

/-- Normalization followed by lower-casing, the comparison key
`generateConflictFreePath` (and the planner) applies to every path
(`normalizeWindowsPath(p).toLowerCase()` in the source). -/
def normLower (s : String) : String := lowerStr (normalizeWindowsPath s)

/-- Loop body of `generateConflictFreePath` (src/lib/utils/path.ts): try
`basePath-suffix`; on a (case-insensitive, normalized) collision increment
the suffix, failing once the incremented suffix exceeds 100.  The structural
`fuel` only mirrors the source's unbounded `while (true)`: with the fuel the
top level supplies (99), the `suffix > 100` guard always fires first, so the
fuel-exhaustion branch reproduces the same error the guard raises. -/
def conflictLoop (basePath : String) (ne : List String) : Nat → Nat → Except String String
  | _, 0 => .error "Too many path conflicts"
  | suffix, f + 1 =>
    let candidate := basePath ++ "-" ++ toString suffix
    if ¬ ne.contains (normLower candidate) then .ok candidate
    else if suffix + 1 > 100 then .error "Too many path conflicts"
    else conflictLoop basePath ne (suffix + 1) f

/-- Source `generateConflictFreePath` (src/lib/utils/path.ts): return
`basePath` unchanged unless it collides case-insensitively with an existing
path, else append `-2`, `-3`, …; the thrown `Error('Too many path
conflicts')` is modelled as `Except.error`. -/
def generateConflictFreePath (basePath : String) (existingPaths : List String) :
    Except String String :=
  let normalizedBase := normLower basePath
  let normalizedExisting := existingPaths.map normLower
  if ¬ normalizedExisting.contains normalizedBase then .ok basePath
  else conflictLoop basePath normalizedExisting 2 99

/-- Modelled from Node's `path.resolve` restricted to the absolute
drive-letter paths this program feeds it (the called library function is not
part of the repository source): separators are normalized and `.`/`..`/empty
segments are resolved against the drive root. -/
def resolveAbs (p : String) : String :=
  let n := normalizeWindowsPath p
  match splitSlash n with
  | [] => n
  | drive :: rest =>
    let resolved := rest.foldl
      (fun acc seg =>
        if seg = ".." then acc.dropLast
        else if seg = "." || seg = "" then acc
        else acc ++ [seg])
      ([] : List String)
    drive ++ "/" ++ joinWith "/" resolved

/-- Source `isInsideAllowedRoot` (src/lib/utils/path.ts): a plain
`startsWith` test on the resolved, normalized, lower-cased path strings. -/
def isInsideAllowedRoot (targetPath rootPath : String) : Bool :=
  let normalizedTarget := lowerStr (normalizeWindowsPath (resolveAbs targetPath))
  let normalizedRoot := lowerStr (normalizeWindowsPath (resolveAbs rootPath))
  jsStartsWith normalizedTarget normalizedRoot

/-- Modelled from the claim's words, for comparison with
`isInsideAllowedRoot`: a target lies under a root when (after the same
resolution, normalization and lower-casing) it equals the root or extends it
at a directory boundary, i.e. with a `/`-separated suffix. -/
def pathLiesUnderRoot (targetPath rootPath : String) : Bool :=
  let normalizedTarget := lowerStr (normalizeWindowsPath (resolveAbs targetPath))
  let normalizedRoot := lowerStr (normalizeWindowsPath (resolveAbs rootPath))
  normalizedTarget = normalizedRoot || jsStartsWith normalizedTarget (normalizedRoot ++ "/")

/-- The candidate `basePath-k` collides with the (already normalized,
lower-cased) existing paths. -/
def candidateTaken (basePath : String) (ne : List String) (k : Nat) : Bool :=
  ne.contains (normLower (basePath ++ "-" ++ toString k))

/-- Classifier for the exhaustion outcome of the suffix search. -/
def isExhaustionError : Except String String → Bool
  | .error e => e = "Too many path conflicts"
  | .ok _ => false

/-- Concrete 101-entry collision set from the repository's own test for the
exhaustion case: `app` plus `app-2` … `app-101`. -/
def seqConflicts : List String :=
  "c:/projects/app" :: ((List.range 100).map fun i => "c:/projects/app-" ++ toString (i + 2))

theorem conflictLoop_first_free (b : String) (ne : List String) :
    ∀ (gap suffix : Nat) (fuel : Nat),
      suffix + gap ≤ 100 →
      gap + 1 ≤ fuel →
      (¬ candidateTaken b ne (suffix + gap)) →
      (∀ j, suffix ≤ j → j < suffix + gap → candidateTaken b ne j) →
      conflictLoop b ne suffix fuel = .ok (b ++ "-" ++ toString (suffix + gap)) := by
  intro gap
  induction gap with
  | zero =>
    intro suffix fuel _ hfuel hfree _
    match fuel, hfuel with
    | f + 1, _ =>
      rw [Nat.add_zero] at hfree ⊢
      have hfree' : ¬ ne.contains (normLower (b ++ "-" ++ toString suffix)) = true := by
        simpa [candidateTaken] using hfree
      simp only [conflictLoop]
      rw [if_pos hfree']
      rfl
  | succ g ih =>
    intro suffix fuel hle hfuel hfree hall
    match fuel, hfuel with
    | f + 1, hfuel =>
      have htaken : candidateTaken b ne suffix := hall suffix (Nat.le_refl _) (by omega)
      simp only [conflictLoop]
      rw [if_neg (by simpa [candidateTaken] using htaken)]
      rw [if_neg (by omega)]
      have : suffix + 1 + g = suffix + (g + 1) := by omega
      rw [show suffix + (g + 1) = suffix + 1 + g by omega] at hfree hall ⊢
      exact ih (suffix + 1) f (by omega) (by omega) hfree
        (fun j hj1 hj2 => hall j (by omega) (by omega))

theorem conflictLoop_exhausted (b : String) (ne : List String) :
    ∀ (gap suffix : Nat) (fuel : Nat),
      suffix + gap = 100 →
      gap + 1 ≤ fuel →
      (∀ j, suffix ≤ j → j ≤ 100 → candidateTaken b ne j) →
      conflictLoop b ne suffix fuel = .error "Too many path conflicts" := by
  intro gap
  induction gap with
  | zero =>
    intro suffix fuel h100 hfuel hall
    match fuel, hfuel with
    | f + 1, _ =>
      have htaken : candidateTaken b ne suffix := hall suffix (Nat.le_refl _) (by omega)
      simp only [conflictLoop]
      rw [if_neg (by simpa [candidateTaken] using htaken)]
      rw [if_pos (by omega)]
  | succ g ih =>
    intro suffix fuel h100 hfuel hall
    match fuel, hfuel with
    | f + 1, hfuel =>
      have htaken : candidateTaken b ne suffix := hall suffix (Nat.le_refl _) (by omega)
      simp only [conflictLoop]
      rw [if_neg (by simpa [candidateTaken] using htaken)]
      rw [if_neg (by omega)]
      exact ih (suffix + 1) f (by omega) (by omega)
        (fun j hj1 hj2 => hall j (by omega) hj2)

set_option maxRecDepth 100000 in
set_option maxHeartbeats 4000000 in
/-- C7: `generateConflictFreePath` returns `basePath` unchanged when it is
not case-insensitively among the existing paths; otherwise it returns the
first free candidate `basePath-2`, `basePath-3`, …; it reports the
exhaustion error once the suffix search passes the 100 bound; and the three
concrete cases of the claim hold: `resolveConflict("X", ["x"]) = "X-2"`,
`resolveConflict("X", ["x","x-2","x-3"]) = "X-4"`, and 101 pre-existing
sequential conflicts produce the exhaustion error. -/
theorem generateConflictFreePath_correct :
    (∀ b existing, ¬ (existing.map normLower).contains (normLower b) →
      generateConflictFreePath b existing = .ok b) ∧
    (∀ b existing k, (existing.map normLower).contains (normLower b) →
      2 ≤ k → k ≤ 100 →
      ¬ candidateTaken b (existing.map normLower) k →
      (∀ j, 2 ≤ j → j < k → candidateTaken b (existing.map normLower) j) →
      generateConflictFreePath b existing = .ok (b ++ "-" ++ toString k)) ∧
    (∀ b existing, (existing.map normLower).contains (normLower b) →
      (∀ j, 2 ≤ j → j ≤ 100 → candidateTaken b (existing.map normLower) j) →
      generateConflictFreePath b existing = .error "Too many path conflicts") ∧
    generateConflictFreePath "X" ["x"] = .ok "X-2" ∧
    generateConflictFreePath "X" ["x", "x-2", "x-3"] = .ok "X-4" ∧
    isExhaustionError (generateConflictFreePath "C:/Projects/app" seqConflicts) = true := by
  refine ⟨?_, ?_, ?_, by rfl, by rfl, by decide⟩
  · intro b existing h
    simp only [generateConflictFreePath]
    rw [if_pos h]
  · intro b existing k hin h2 h100 hfree hall
    simp only [generateConflictFreePath]
    rw [if_neg (not_not_intro hin)]
    have := conflictLoop_first_free b (existing.map normLower) (k - 2) 2 99
      (by omega) (by omega)
      (by rw [show 2 + (k - 2) = k by omega]; exact hfree)
      (by intro j hj1 hj2
          rw [show 2 + (k - 2) = k by omega] at hj2
          exact hall j hj1 hj2)
    rw [show 2 + (k - 2) = k by omega] at this
    exact this
  · intro b existing hin hall
    simp only [generateConflictFreePath]
    rw [if_neg (not_not_intro hin)]
    exact conflictLoop_exhausted b (existing.map normLower) 98 2 99
      (by omega) (by omega) (fun j hj1 hj2 => hall j hj1 hj2)

/-- Witness for C7 at concrete inputs: "X" does not collide with ["y"], so
it is returned unchanged. -/
theorem generateConflictFreePath_correct_witness :
    generateConflictFreePath "X" ["y"] = .ok "X" :=
  generateConflictFreePath_correct.1 "X" ["y"] (by decide)

/-- C10: the inside-root check is a plain string-prefix test on resolved,
lower-cased paths, so the sibling `C:/repo-backup`, which does not lie under
the root `C:/repo`, is nevertheless accepted as inside it. -/
theorem isInsideAllowedRoot_accepts_sibling :
    isInsideAllowedRoot "C:/repo-backup" "C:/repo" = true ∧
    pathLiesUnderRoot "C:/repo-backup" "C:/repo" = false := by
  exact ⟨by decide, by decide⟩

/-! Theme classifier (src/lib/services/scanner.ts). -/

/-- Dependency maps of a parsed package.json, modelling
`{ dependencies?: Record<string,string>, devDependencies?: Record<string,string> }`
as association lists. -/
structure PackageDeps where
  dependencies : Option (List (String × String))
  devDependencies : Option (List (String × String))
deriving DecidableEq

/-- Source `ThemeSuggestionInput` (src/lib/services/scanner.ts).  The
`files = []` default of the destructuring is applied by the callers in this
embedding. -/
structure ThemeSuggestionInput where
  packageJson : Option PackageDeps
  files : List String
  remoteUrl : Option String
  readmeContent : Option String
  repoDescription : Option String
deriving DecidableEq

/-- JS truthiness of an optional-chaining dependency access such as
`packageJson?.dependencies?.next`: the record exists, has the key, and the
version string is truthy. -/
def depTruthy : Option (List (String × String)) → String → Bool
  | none, _ => false
  | some deps, name =>
    match deps.lookup name with
    | some v => v ≠ ""
    | none => false

/-- Access `packageJson?.dependencies?.<name>` as a boolean. -/
def pjDep (pj : Option PackageDeps) (name : String) : Bool :=
  match pj with
  | none => false
  | some p => depTruthy p.dependencies name

/-- Access `packageJson?.devDependencies?.<name>` as a boolean. -/
def pjDevDep (pj : Option PackageDeps) (name : String) : Bool :=
  match pj with
  | none => false
  | some p => depTruthy p.devDependencies name

/-- The `nextjs` row of `THEME_KEYWORDS`. -/
def nextjsKeywords : List String :=
  ["next.js", "nextjs", "react", "typescript", "tailwind", "vercel",
   "frontend", "web app", "dashboard", "ui", "component"]

/-- The `python` row of `THEME_KEYWORDS`. -/
def pythonKeywords : List String :=
  ["python", "django", "flask", "fastapi", "pytorch", "tensorflow",
   "machine learning", "ml", "ai", "data science", "pandas", "numpy",
   "jupyter", "notebook", "pip", "conda"]

/-- The `experiments` row of `THEME_KEYWORDS`. -/
def experimentsKeywords : List String :=
  ["experiment", "poc", "proof of concept", "prototype", "demo",
   "learning", "tutorial", "playground", "sandbox", "test", "example"]

/-- The `archived` row of `THEME_KEYWORDS`. -/
def archivedKeywords : List String :=
  ["archived", "deprecated", "legacy", "old", "unmaintained",
   "no longer maintained", "obsolete", "inactive"]

/-- Source `THEME_KEYWORDS` table, in object-literal insertion order
(relevant because `Object.entries` preserves it and ties in the score sort
keep it). -/
def themeKeywordTable : List (String × List String) :=
  [("nextjs", nextjsKeywords), ("python", pythonKeywords),
   ("experiments", experimentsKeywords), ("archived", archivedKeywords)]

/-- The `textContent` local of `suggestTheme`:
`[readmeContent || '', repoDescription || ''].join(' ').toLowerCase()`. -/
def textContentOf (input : ThemeSuggestionInput) : String :=
  lowerStr ((input.readmeContent.getD "") ++ " " ++ (input.repoDescription.getD ""))

/-- The file names `suggestTheme` treats as Python project markers. -/
def pythonIndicators : List String :=
  ["requirements.txt", "setup.py", "pyproject.toml", "Pipfile"]

/-- The archived guard of `suggestTheme`: remote URL containing the literal
substring `archived` or `deprecated`, or any archival keyword occurring in
the combined readme+description text (`.some(...)` in the source, hence a
single hit suffices). -/
def archivedSignal (remoteUrl : Option String) (textContent : String) : Bool :=
  (match remoteUrl with
   | some u => jsIncludes u "archived" || jsIncludes u "deprecated"
   | none => false)
  || archivedKeywords.any fun kw => jsIncludes textContent kw

/-- The keyword-score computation of `suggestTheme`: per theme, the number
of its keywords occurring in the text. -/
def keywordScores (textContent : String) : List (String × Nat) :=
  themeKeywordTable.map fun p => (p.1, (p.2.filter fun kw => jsIncludes textContent kw).length)

/-- The `.filter(score > 0).sort(descending)[0]` selection of
`suggestTheme`: the first theme attaining the maximal positive score
(JS sort is stable, so ties keep table order). -/
def bestScoring (scores : List (String × Nat)) : Option (String × Nat) :=
  (scores.filter fun q => q.2 > 0).foldl
    (fun acc p =>
      match acc with
      | none => some p
      | some b => if p.2 > b.2 then some p else acc)
    none

/-- Source `suggestTheme` (src/lib/services/scanner.ts): ordered heuristics
from archived signal down to keyword scoring with the `>= 2` text
threshold. -/
def suggestTheme (input : ThemeSuggestionInput) : String :=
  let textContent := textContentOf input
  if archivedSignal input.remoteUrl textContent then "archived"
  else if pjDep input.packageJson "next" || pjDevDep input.packageJson "next" then "nextjs"
  else if pjDep input.packageJson "react"
          && !pjDep input.packageJson "next"
          && !pjDevDep input.packageJson "next" then "nextjs"
  else if (input.files.any fun f => pythonIndicators.contains f)
          || (input.files.any fun f => jsEndsWith f ".py") then "python"
  else if pjDep input.packageJson "vue" then "experiments"
  else if textContent.length > 0 then
    match bestScoring (keywordScores textContent) with
    | some p => if p.2 ≥ 2 then p.1 else "unclassified"
    | none => "unclassified"
  else "unclassified"

theorem bestScoring_mem (scores : List (String × Nat)) (p : String × Nat) :
    bestScoring scores = some p → p ∈ scores.filter fun q => q.2 > 0 := by
  have aux : ∀ (l : List (String × Nat)) (acc : Option (String × Nat)) (res : String × Nat),
      l.foldl (fun acc p =>
        match acc with
        | none => some p
        | some b => if p.2 > b.2 then some p else acc) acc = some res →
      acc = some res ∨ res ∈ l := by
    intro l
    induction l with
    | nil => intro acc res h; exact Or.inl h
    | cons x t ih =>
      intro acc res h
      simp only [List.foldl_cons] at h
      rcases ih _ res h with h1 | h2
      · match acc with
        | none =>
          simp only at h1
          exact Or.inr (by simp [← Option.some_inj.mp h1])
        | some b =>
          simp only at h1
          by_cases hx : x.2 > b.2
          · rw [if_pos hx] at h1
            exact Or.inr (by simp [← Option.some_inj.mp h1])
          · rw [if_neg hx] at h1
            exact Or.inl h1
      · exact Or.inr (List.mem_cons_of_mem _ h2)
  intro h
  rcases aux _ none p h with h1 | h2
  · exact absurd h1 (by simp)
  · exact h2

theorem suggestTheme_archived_only_if (input : ThemeSuggestionInput) :
    archivedSignal input.remoteUrl (textContentOf input) = false →
    suggestTheme input ≠ "archived" := by
  intro h hcontra
  simp only [suggestTheme, h, Bool.false_eq_true, if_false] at hcontra
  split at hcontra
  · exact absurd hcontra (by decide)
  split at hcontra
  · exact absurd hcontra (by decide)
  split at hcontra
  · exact absurd hcontra (by decide)
  split at hcontra
  · exact absurd hcontra (by decide)
  split at hcontra
  case _ =>
    -- keyword-scoring branch
    split at hcontra
    case _ p heq =>
      split at hcontra
      · -- the selected theme would have to be the archived row with a
        -- positive score, i.e. some archival keyword occurs in the text
        have hmem := bestScoring_mem _ _ heq
        rw [List.mem_filter] at hmem
        obtain ⟨hmem, hpos⟩ := hmem
        simp only [keywordScores, List.mem_map] at hmem
        obtain ⟨q, hq, hpq⟩ := hmem
        have hq1 : q.1 = "archived" := by
          have h1 : q.1 = p.1 := congrArg Prod.fst hpq
          rw [h1, hcontra]
        have harch : q.2 = archivedKeywords := by
          have hq' : q = ("nextjs", nextjsKeywords) ∨ q = ("python", pythonKeywords) ∨
              q = ("experiments", experimentsKeywords) ∨
              q = ("archived", archivedKeywords) := by
            simpa [themeKeywordTable] using hq
          rcases hq' with h1 | h1 | h1 | h1 <;> subst h1 <;>
            first
              | rfl
              | exact absurd hq1 (by decide)
        rw [← hpq] at hpos
        simp only [harch] at hpos
        simp only [decide_eq_true_eq] at hpos
        have : ∃ kw ∈ archivedKeywords, jsIncludes (textContentOf input) kw = true := by
          have hlen : 0 < (archivedKeywords.filter
              fun kw => jsIncludes (textContentOf input) kw).length := hpos
          rw [List.length_pos] at hlen
          obtain ⟨kw, hkw⟩ := List.exists_mem_of_ne_nil _ hlen
          rw [List.mem_filter] at hkw
          exact ⟨kw, hkw.1, hkw.2⟩
        have hany : (archivedKeywords.any fun kw =>
            jsIncludes (textContentOf input) kw) = true := by
          rw [List.any_eq_true]
          obtain ⟨kw, h1, h2⟩ := this
          exact ⟨kw, h1, h2⟩
        simp only [archivedSignal, Bool.or_eq_false_iff] at h
        rw [hany] at h
        exact absurd h.2 (by decide)
      · exact absurd hcontra (by decide)
    case _ => exact absurd hcontra (by decide)
  case _ => exact absurd hcontra (by decide)

/-- C6 (amended): `suggestTheme` returns `"archived"` exactly when the
remote URL contains the literal substring `archived` or `deprecated`, or at
least ONE archival keyword occurs in the combined readme+description text
(the source uses `.some(...)`, not a two-hit threshold). -/
theorem suggestTheme_archived_iff (input : ThemeSuggestionInput) :
    suggestTheme input = "archived" ↔
    archivedSignal input.remoteUrl (textContentOf input) = true := by
  constructor
  · intro h
    by_contra hneg
    exact suggestTheme_archived_only_if input (Bool.eq_false_iff.mpr hneg) h
  · intro h
    simp [suggestTheme, h]

/-- C6 (counterexample): with no URL signal and a readme containing exactly
one archival keyword (`"legacy"`), the classifier already returns
`"archived"`, refuting the claim's two-distinct-hit threshold. -/
theorem suggestTheme_single_keyword_archived :
    suggestTheme ⟨none, [], none, some "legacy", none⟩ = "archived" ∧
    (archivedKeywords.filter fun kw =>
      jsIncludes (textContentOf ⟨none, [], none, some "legacy", none⟩) kw).length = 1 ∧
    (⟨none, [], none, some "legacy", none⟩ : ThemeSuggestionInput).remoteUrl = none := by
  refine ⟨by decide, by decide, rfl⟩

/-! Data model (prisma Repository table, src/lib/types.ts) and the record
store actions (src/lib/actions/repositories.ts, scan action upsert).  The
prisma store is modelled as a list of records; `update where id` maps over
the list touching the matching record. -/

/-- The `TriageStatus` union of src/lib/types.ts. -/
inductive TriageStatus where
  | pending
  | manual
  | auto
  | ignored
deriving DecidableEq

/-- A row of the prisma `Repository` table (nullable columns are
`Option`). -/
structure Repository where
  id : Nat
  name : String
  originalPath : String
  physicalPath : Option String
  remoteUrl : Option String
  lastCommitSha : Option String
  isDirty : Bool
  theme : Option String
  triageStatus : TriageStatus
deriving DecidableEq

/-- The `ActionResult<T>` union of src/lib/types.ts. -/
inductive ActionResult (α : Type) where
  | ok (data : α) (message : Option String)
  | err (error : String)
deriving DecidableEq

/-- Whether an action result is success-shaped (`success: true`). -/
def ActionResult.isOk {α : Type} : ActionResult α → Bool
  | .ok _ _ => true
  | .err _ => false

/-- Source `assignTheme` (src/lib/actions/repositories.ts): zod validation
(`repoId` positive, `theme` non-empty; the specific zod message text is
abstracted to "Invalid data" here), lookup, then update of `theme` and
`triageStatus = manual`.  Returns the result together with the store after
the call. -/
def assignTheme (store : List Repository) (repoId : Nat) (theme : String) :
    ActionResult Unit × List Repository :=
  if ¬ (0 < repoId) ∨ theme = "" then (.err "Invalid data", store)
  else
    match store.find? fun r => r.id = repoId with
    | none => (.err "Repository not found", store)
    | some repo =>
      (.ok () (some ("Theme \"" ++ theme ++ "\" assigned to " ++ repo.name)),
       store.map fun r =>
         if r.id = repoId then { r with theme := some theme, triageStatus := .manual } else r)

/-- Source `setTriageStatus` (src/lib/actions/repositories.ts): lookup, then
update of `triageStatus` only (`physicalPath` is not touched). -/
def setTriageStatus (store : List Repository) (repoId : Nat) (status : TriageStatus) :
    ActionResult Unit × List Repository :=
  match store.find? fun r => r.id = repoId with
  | none => (.err "Repository not found", store)
  | some _ =>
    (.ok () (some "Status updated"),
     store.map fun r => if r.id = repoId then { r with triageStatus := status } else r)

/-! Scan upsert (the `triggerScan` result-processing loop of the scan
action, src/unnamed/part_006). -/

/-- One scan result as pushed by `scanDirectory`
(src/lib/services/scanner.ts): probe data plus the classifier's
suggestion. -/
structure RepoScanResult where
  name : String
  path : String
  remoteUrl : Option String
  lastCommitSha : Option String
  isDirty : Bool
  suggestedTheme : String
deriving DecidableEq

/-- The `prisma.repository.update` data of the existing-record branch of
`triggerScan`: refresh `remoteUrl`, `lastCommitSha`, `isDirty`, and spread
in `theme` only when the stored theme is JS-falsy and the suggestion is
JS-truthy (`existingRepo && !existingRepo.theme && result.suggestedTheme`). -/
def updateExisting (r : Repository) (res : RepoScanResult) : Repository :=
  { r with
    remoteUrl := res.remoteUrl,
    lastCommitSha := res.lastCommitSha,
    isDirty := res.isDirty,
    theme := if ¬ jsTruthy r.theme ∧ res.suggestedTheme ≠ "" then some res.suggestedTheme
             else r.theme }

/-- Autoincrement id for a created row. -/
def freshId (store : List Repository) : Nat :=
  (store.map fun r => r.id).foldr max 0 + 1

/-- The `prisma.repository.create` data of the new-record branch of
`triggerScan`: normalized path, `triageStatus = "pending"`, theme seeded
from the suggestion (`result.suggestedTheme || null`), no
`physicalPath`. -/
def createNew (store : List Repository) (res : RepoScanResult) : Repository :=
  { id := freshId store,
    name := res.name,
    originalPath := normalizeWindowsPath res.path,
    physicalPath := none,
    remoteUrl := res.remoteUrl,
    lastCommitSha := res.lastCommitSha,
    isDirty := res.isDirty,
    theme := if res.suggestedTheme ≠ "" then some res.suggestedTheme else none,
    triageStatus := .pending }

/-- The result-processing loop of `triggerScan`: the lookup map from
normalized `originalPath` to id is built once before the loop (as in the
source) and each result either updates the matching record in place or
appends a freshly created one, counting updates and creations. -/
def processScanResults (pathMap : List (String × Nat)) (store : List Repository) :
    List RepoScanResult → List Repository × Nat × Nat
  | [] => (store, 0, 0)
  | res :: rest =>
    match pathMap.lookup (normLower res.path) with
    | some i =>
      let store1 := store.map fun r => if r.id = i then updateExisting r res else r
      let out := processScanResults pathMap store1 rest
      (out.1, out.2.1, out.2.2 + 1)
    | none =>
      let store1 := store ++ [createNew store res]
      let out := processScanResults pathMap store1 rest
      (out.1, out.2.1 + 1, out.2.2)

/-- The upsert pass of `triggerScan` over a batch of scan results: the path
map is `normalizeWindowsPath(r.originalPath).toLowerCase() -> r.id` over the
store fetched before the loop. -/
def triggerScanUpsert (store : List Repository) (results : List RepoScanResult) :
    List Repository × Nat × Nat :=
  processScanResults (store.map fun r => (normLower r.originalPath, r.id)) store results

theorem processScanResults_length (results : List RepoScanResult) :
    ∀ (pathMap : List (String × Nat)) (store : List Repository),
      store.length ≤ (processScanResults pathMap store results).1.length := by
  induction results with
  | nil => intro pathMap store; exact Nat.le_refl _
  | cons res rest ih =>
    intro pathMap store
    simp only [processScanResults]
    cases hlk : pathMap.lookup (normLower res.path) with
    | some i =>
      have := ih pathMap (store.map fun r => if r.id = i then updateExisting r res else r)
      simpa using this
    | none =>
      have := ih pathMap (store ++ [createNew store res])
      calc store.length ≤ (store ++ [createNew store res]).length := by simp
        _ ≤ _ := this

theorem processScanResults_theme_at (results : List RepoScanResult) :
    ∀ (pathMap : List (String × Nat)) (store : List Repository) (i : Nat)
      (h1 : i < store.length),
      jsTruthy (store.get ⟨i, h1⟩).theme = true →
      ∀ r', (processScanResults pathMap store results).1.get? i = some r' →
      r'.theme = (store.get ⟨i, h1⟩).theme := by
  induction results with
  | nil =>
    intro pathMap store i h1 ht r' hr'
    simp only [processScanResults] at hr'
    rw [List.get?_eq_get h1] at hr'
    cases hr'
    rfl
  | cons res rest ih =>
    intro pathMap store i h1 ht
    simp only [processScanResults]
    cases hlk : pathMap.lookup (normLower res.path) with
    | some j =>
      intro r' hr'
      simp only at hr'
      have hlen : i < (store.map fun r =>
          if r.id = j then updateExisting r res else r).length := by simpa using h1
      have hkey : ((store.map fun r =>
          if r.id = j then updateExisting r res else r).get ⟨i, hlen⟩).theme =
          (store.get ⟨i, h1⟩).theme := by
        rw [List.get_map]
        by_cases hid : (store.get ⟨i, h1⟩).id = j
        · rw [if_pos hid]
          simp only [updateExisting]
          rw [if_neg]
          intro hc
          rw [ht] at hc
          exact absurd hc.1 (by decide)
        · rw [if_neg hid]
      have ht1 : jsTruthy ((store.map fun r =>
          if r.id = j then updateExisting r res else r).get ⟨i, hlen⟩).theme = true := by
        rw [hkey]; exact ht
      have := ih pathMap _ i hlen ht1 r' hr'
      rw [this, hkey]
    | none =>
      intro r' hr'
      simp only at hr'
      have hlen : i < (store ++ [createNew store res]).length := by
        simp only [List.length_append, List.length_singleton]
        omega
      have hkey : ((store ++ [createNew store res]).get ⟨i, hlen⟩) =
          store.get ⟨i, h1⟩ := by
        rw [List.get_append _ h1]
      have ht1 : jsTruthy ((store ++ [createNew store res]).get ⟨i, hlen⟩).theme = true := by
        rw [hkey]; exact ht
      have := ih pathMap _ i hlen ht1 r' hr'
      rw [this, hkey]

/-- C5 (amended): the scan upsert never changes a JS-truthy (non-null,
non-empty) stored theme — neither in a single `updateExisting` step nor
through a whole `processScanResults` pass over any result batch — it
refreshes exactly the volatile fields (remote URL, commit sha, dirty flag),
and it writes a suggested theme only when the stored theme is falsy (null or
empty) and the suggestion is truthy.  The claim's "non-null" must be
weakened to "non-null and non-empty" because the source guards with JS
truthiness (`!existingRepo.theme`), which treats an empty-string theme as
unset. -/
theorem scanUpsert_theme_preservation :
    (∀ (r : Repository) (res : RepoScanResult),
      jsTruthy r.theme = true → (updateExisting r res).theme = r.theme) ∧
    (∀ (r : Repository) (res : RepoScanResult),
      (updateExisting r res).remoteUrl = res.remoteUrl ∧
      (updateExisting r res).lastCommitSha = res.lastCommitSha ∧
      (updateExisting r res).isDirty = res.isDirty ∧
      (updateExisting r res).name = r.name ∧
      (updateExisting r res).originalPath = r.originalPath ∧
      (updateExisting r res).physicalPath = r.physicalPath ∧
      (updateExisting r res).triageStatus = r.triageStatus) ∧
    (∀ (r : Repository) (res : RepoScanResult),
      (updateExisting r res).theme ≠ r.theme →
      jsTruthy r.theme = false ∧ res.suggestedTheme ≠ "" ∧
      (updateExisting r res).theme = some res.suggestedTheme) ∧
    (∀ (results : List RepoScanResult) (store : List Repository) (i : Nat)
      (h1 : i < store.length) (r' : Repository),
      jsTruthy (store.get ⟨i, h1⟩).theme = true →
      (triggerScanUpsert store results).1.get? i = some r' →
      r'.theme = (store.get ⟨i, h1⟩).theme) := by
  refine ⟨?_, ?_, ?_, ?_⟩
  · intro r res ht
    simp only [updateExisting]
    rw [if_neg]
    intro hc
    rw [ht] at hc
    exact absurd hc.1 (by decide)
  · intro r res
    exact ⟨rfl, rfl, rfl, rfl, rfl, rfl, rfl⟩
  · intro r res hne
    simp only [updateExisting] at hne ⊢
    by_cases hc : ¬ jsTruthy r.theme ∧ res.suggestedTheme ≠ ""
    · rw [if_pos hc] at hne ⊢
      exact ⟨Bool.not_eq_true _ ▸ (by simpa using hc.1), hc.2, rfl⟩
    · rw [if_neg hc] at hne
      exact absurd rfl hne
  · intro results store i h1 r' ht hr'
    exact processScanResults_theme_at results _ store i h1 ht r' hr'

/-- Witness for C5 at a concrete store: a record with theme `"python"` keeps
it through an upsert that suggests `"nextjs"`. -/
theorem scanUpsert_theme_preservation_witness :
    (updateExisting
      ⟨1, "a", "c:/src/a", none, none, none, false, some "python", .manual⟩
      ⟨"a", "c:/src/a", none, none, true, "nextjs"⟩).theme = some "python" :=
  scanUpsert_theme_preservation.1
    ⟨1, "a", "c:/src/a", none, none, none, false, some "python", .manual⟩
    ⟨"a", "c:/src/a", none, none, true, "nextjs"⟩ (by decide)

/-- C5 (counterexample): a record whose theme is the non-null empty string
is JS-falsy, so a re-scan overwrites it with the classifier's suggestion —
the claim's "non-null theme is never changed" fails at `theme = some ""`. -/
theorem updateExisting_overwrites_empty_theme :
    (⟨1, "a", "c:/src/a", none, none, none, false, some "", .pending⟩ :
      Repository).theme.isSome = true ∧
    (updateExisting ⟨1, "a", "c:/src/a", none, none, none, false, some "", .pending⟩
      ⟨"a", "c:/src/a", none, none, false, "python"⟩).theme = some "python" := by
  exact ⟨rfl, by decide⟩

/-! Move executor (src/lib/actions/triage.ts `executeMoves` and
`copyDirectory`).  The filesystem is modelled at two levels: the executor's
existence checks run against a list of existing paths plus an event trace
recording the filesystem calls in program order, and the recursive copy is
modelled on a directory-tree type mirroring the `withFileTypes` entries it
traverses. -/

/-- Source `MovePreview` (src/lib/types.ts).  The source fields `from`/`to`
are named `fromPath`/`toPath` because `from` is a Lean keyword. -/
structure MovePreview where
  repoId : Nat
  repoName : String
  fromPath : String
  toPath : String
  theme : String
  conflicts : List String
  warnings : List String
deriving DecidableEq

/-- Source `MoveResult` (src/lib/types.ts). -/
structure MoveResult where
  success : Bool
  repoId : Nat
  repoName : String
  fromPath : String
  toPath : String
  error : Option String
deriving DecidableEq

/-- The `handleConflicts` union of `MoveOptions` (src/lib/types.ts). -/
inductive HandleConflicts where
  | suffix
  | skip
  | fail
deriving DecidableEq

/-- Source `MoveOptions` (src/lib/types.ts). -/
structure MoveOptions where
  createBackup : Bool
  handleConflicts : HandleConflicts
deriving DecidableEq

/-- Source `DEFAULT_MOVE_OPTIONS` (src/lib/types.ts). -/
def DEFAULT_MOVE_OPTIONS : MoveOptions := ⟨false, .suffix⟩

/-- Modelled from Node's `path.dirname` (library code, not in the
repository) for the forward-slash paths the executor builds: everything up
to the last separator. -/
def dirname (p : String) : String :=
  match splitSlash p with
  | [] => "."
  | [_] => "."
  | parts => joinWith "/" parts.dropLast

/-- Filesystem calls the executor issues, in program order. -/
inductive FsEvent where
  | mkdirp (dir : String)
  | rename (src dst : String)
  | copyTree (src dst : String)
  | rmrf (p : String)
deriving DecidableEq

/-- Effect of `fs.mkdir(dir, { recursive: true })` on the set of existing
paths. -/
def afterMkdir (st : List String) (dir : String) : List String :=
  if st.contains dir then st else dir :: st

/-- The loop body of `executeMoves` for one (already filtered) entry:
ensure the target's parent, check the source, re-check the target under the
`handleConflicts` mode, relocate (rename on the same drive, copy-then-delete
across drives), and update the store row to `physicalPath = normalized to`,
`triageStatus = "auto"`.  Returns the filesystem set, the store, the
per-entry `MoveResult`, and the emitted filesystem events in order. -/
def stepMove (opts : MoveOptions) (st : List String) (store : List Repository)
    (m : MovePreview) : List String × List Repository × MoveResult × List FsEvent :=
  let targetDir := dirname m.toPath
  let st1 := afterMkdir st targetDir
  if ¬ st1.contains m.fromPath then
    (st1, store,
     ⟨false, m.repoId, m.repoName, m.fromPath, m.toPath, some "Source directory not found"⟩,
     [.mkdirp targetDir])
  else if st1.contains m.toPath ∧ opts.handleConflicts = .skip then
    (st1, store,
     ⟨false, m.repoId, m.repoName, m.fromPath, m.toPath, some "Target already exists (skipped)"⟩,
     [.mkdirp targetDir])
  else if st1.contains m.toPath ∧ opts.handleConflicts = .fail then
    (st1, store,
     ⟨false, m.repoId, m.repoName, m.fromPath, m.toPath, some "Target already exists"⟩,
     [.mkdirp targetDir])
  else
    let moveEvents :=
      if isSameDrive m.fromPath m.toPath then [FsEvent.rename m.fromPath m.toPath]
      else [FsEvent.copyTree m.fromPath m.toPath, FsEvent.rmrf m.fromPath]
    let st2 := m.toPath :: st1.erase m.fromPath
    let store2 := store.map fun r =>
      if r.id = m.repoId then
        { r with physicalPath := some (normalizeWindowsPath m.toPath), triageStatus := .auto }
      else r
    (st2, store2,
     ⟨true, m.repoId, m.repoName, m.fromPath, m.toPath, none⟩,
     .mkdirp targetDir :: moveEvents)

/-- The sequential loop of `executeMoves` over the filtered entries,
threading filesystem and store and concatenating results and events. -/
def runMoves (opts : MoveOptions) :
    List MovePreview → List String → List Repository →
    List String × List Repository × List MoveResult × List FsEvent
  | [], st, store => (st, store, [], [])
  | m :: rest, st, store =>
    let out1 := stepMove opts st store m
    let out2 := runMoves opts rest out1.1 out1.2.1
    (out2.1, out2.2.1, out1.2.2.1 :: out2.2.2.1, out1.2.2.2 ++ out2.2.2.2)

/-- The `{ successful, failed, results }` payload of `executeMoves`. -/
structure MoveSummary where
  successful : Nat
  failed : Nat
  results : List MoveResult
deriving DecidableEq

/-- The valid-entry filter of `executeMoves`:
`moves.filter((m) => m.conflicts.length === 0 && m.to !== "")`. -/
def validMovesOf (moves : List MovePreview) : List MovePreview :=
  moves.filter fun m => m.conflicts.isEmpty && !(m.toPath == "")

/-- Source `executeMoves` (src/lib/actions/triage.ts): filter out entries
with conflicts or an empty target; an empty filtered batch is the only
failure-shaped outcome; otherwise run the batch sequentially and return a
success-shaped result whatever the per-entry outcomes, with the counts and
per-entry results embedded. -/
def executeMoves (moves : List MovePreview) (opts : MoveOptions) (st : List String)
    (store : List Repository) :
    ActionResult MoveSummary × List String × List Repository × List FsEvent :=
  let validMoves := validMovesOf moves
  if validMoves.isEmpty then
    (.err "No valid moves to execute. Resolve conflicts first.", st, store, [])
  else
    let out := runMoves opts validMoves st store
    let successful := (out.2.2.1.filter fun r => r.success).length
    let failed := (out.2.2.1.filter fun r => !r.success).length
    (.ok ⟨successful, failed, out.2.2.1⟩
      (some ("Moved " ++ toString successful ++ " repositories" ++
        (if failed > 0 then ", " ++ toString failed ++ " failed" else ""))),
     out.1, out.2.1, out.2.2.2)

/-! Directory trees for the recursive copy (`copyDirectory`). -/

mutual
/-- A node of the on-disk tree as `copyDirectory` observes it through
`readdir(..., { withFileTypes: true })`: a plain file, a symbolic link
carrying its `readlink` target, or a directory of named entries. -/
inductive FsNode where
  | file : FsNode
  | symlink (target : String) : FsNode
  | dir (entries : FsEntries) : FsNode

/-- Ordered named entries of a directory. -/
inductive FsEntries where
  | nil : FsEntries
  | cons (name : String) (node : FsNode) (rest : FsEntries) : FsEntries
end

mutual
/-- Source `copyDirectory` (src/lib/actions/triage.ts) as a tree transform:
symbolic links are re-created from their `readlink` target (not
dereferenced), directories recurse, files are copied byte-for-byte. -/
def copyNode : FsNode → FsNode
  | .file => .file
  | .symlink target => .symlink target
  | .dir entries => .dir (copyEntries entries)

/-- Entry-wise traversal of `copyDirectory`. -/
def copyEntries : FsEntries → FsEntries
  | .nil => .nil
  | .cons name node rest => .cons name (copyNode node) (copyEntries rest)
end

mutual
theorem copyNode_id : ∀ n : FsNode, copyNode n = n
  | .file => rfl
  | .symlink _ => rfl
  | .dir es => by rw [copyNode, copyEntries_id es]

theorem copyEntries_id : ∀ es : FsEntries, copyEntries es = es
  | .nil => rfl
  | .cons n c rest => by rw [copyEntries, copyNode_id c, copyEntries_id rest]
end

/-- C1: a move entry that reaches the relocation step (its source exists
after the parent-directory creation, and the target either does not exist or
the conflict mode is `suffix`) emits exactly a parent `mkdir` followed by a
single rename when source and target share a drive, and otherwise the
recursive copy followed — strictly afterwards — by the recursive delete of
the source; and the recursive copy reproduces every node unchanged, in
particular re-creating symbolic links as links with their original targets
rather than dereferencing them. -/
theorem executeMoves_relocation_order :
    (∀ (opts : MoveOptions) (st : List String) (store : List Repository) (m : MovePreview),
      (afterMkdir st (dirname m.toPath)).contains m.fromPath = true →
      ((afterMkdir st (dirname m.toPath)).contains m.toPath = false ∨
        opts.handleConflicts = .suffix) →
      (stepMove opts st store m).2.2.2 =
        .mkdirp (dirname m.toPath) ::
          (if isSameDrive m.fromPath m.toPath then [FsEvent.rename m.fromPath m.toPath]
           else [FsEvent.copyTree m.fromPath m.toPath, FsEvent.rmrf m.fromPath])) ∧
    (∀ n : FsNode, copyNode n = n) ∧
    (∀ target : String, copyNode (.symlink target) = .symlink target) := by
  refine ⟨?_, copyNode_id, fun _ => rfl⟩
  intro opts st store m h1 h2
  simp only [stepMove]
  rw [if_neg (by simpa using h1)]
  rw [if_neg (by rcases h2 with h2 | h2 <;> rintro ⟨hc1, hc2⟩
                 · rw [h2] at hc1; exact absurd hc1 (by decide)
                 · rw [h2] at hc2; exact absurd hc2 (by decide))]
  rw [if_neg (by rcases h2 with h2 | h2 <;> rintro ⟨hc1, hc2⟩
                 · rw [h2] at hc1; exact absurd hc1 (by decide)
                 · rw [h2] at hc2; exact absurd hc2 (by decide))]

/-- Witness for C1: a concrete cross-drive entry emits the copy strictly
before the delete, and a concrete same-drive entry is a single rename. -/
theorem executeMoves_relocation_order_witness :
    (stepMove DEFAULT_MOVE_OPTIONS ["C:/src/a"] []
        ⟨1, "a", "C:/src/a", "D:/org/py/a", "py", [], []⟩).2.2.2 =
      [.mkdirp "D:/org/py", .copyTree "C:/src/a" "D:/org/py/a", .rmrf "C:/src/a"] ∧
    (stepMove DEFAULT_MOVE_OPTIONS ["C:/src/a"] []
        ⟨1, "a", "C:/src/a", "C:/org/py/a", "py", [], []⟩).2.2.2 =
      [.mkdirp "C:/org/py", .rename "C:/src/a" "C:/org/py/a"] := by
  constructor
  · have := executeMoves_relocation_order.1 DEFAULT_MOVE_OPTIONS ["C:/src/a"] []
      ⟨1, "a", "C:/src/a", "D:/org/py/a", "py", [], []⟩ (by decide) (Or.inl (by decide))
    simpa using this
  · have := executeMoves_relocation_order.1 DEFAULT_MOVE_OPTIONS ["C:/src/a"] []
      ⟨1, "a", "C:/src/a", "C:/org/py/a", "py", [], []⟩ (by decide) (Or.inl (by decide))
    simpa using this

theorem runMoves_results_align (opts : MoveOptions) :
    ∀ (valid : List MovePreview) (st : List String) (store : List Repository),
      (runMoves opts valid st store).2.2.1.map
          (fun r => (r.repoId, r.repoName, r.fromPath, r.toPath)) =
        valid.map fun m => (m.repoId, m.repoName, m.fromPath, m.toPath) := by
  intro valid
  induction valid with
  | nil => intro st store; rfl
  | cons m rest ih =>
    intro st store
    have hhead : ((stepMove opts st store m).2.2.1.repoId,
        (stepMove opts st store m).2.2.1.repoName,
        (stepMove opts st store m).2.2.1.fromPath,
        (stepMove opts st store m).2.2.1.toPath) =
        (m.repoId, m.repoName, m.fromPath, m.toPath) := by
      simp only [stepMove]
      split
      · rfl
      split
      · rfl
      split
      · rfl
      · rfl
    simp only [runMoves, List.map_cons]
    rw [hhead, ih]

/-- C2: entries with a non-empty conflicts list or an empty target are
excluded from execution and contribute no per-entry result, and each
remaining valid entry contributes exactly one per-entry result carrying its
resolved paths, in batch order, whatever its outcome (an all-invalid batch
yields the error result with no per-entry results at all). -/
theorem executeMoves_per_entry_results (moves : List MovePreview) (opts : MoveOptions)
    (st : List String) (store : List Repository) :
    ((executeMoves moves opts st store).1.isOk = true ↔ validMovesOf moves ≠ []) ∧
    (∀ (summary : MoveSummary) (msg : Option String),
      (executeMoves moves opts st store).1 = .ok summary msg →
      summary.results.map (fun r => (r.repoId, r.repoName, r.fromPath, r.toPath)) =
        (validMovesOf moves).map fun m => (m.repoId, m.repoName, m.fromPath, m.toPath)) := by
  constructor
  · simp only [executeMoves]
    by_cases h : (validMovesOf moves).isEmpty
    · rw [if_pos h]
      constructor
      · intro hfalse; simp [ActionResult.isOk] at hfalse
      · intro hne; exact absurd (List.isEmpty_iff.mp h) hne
    · rw [if_neg h]
      constructor
      · intro _; exact fun hnil => h (List.isEmpty_iff.mpr hnil)
      · intro _; simp [ActionResult.isOk]
  · intro summary msg hok
    simp only [executeMoves] at hok
    by_cases h : (validMovesOf moves).isEmpty
    · rw [if_pos h] at hok
      exact absurd hok (by simp)
    · rw [if_neg h] at hok
      have hres : summary.results = (runMoves opts (validMovesOf moves) st store).2.2.1 := by
        have := congrArg (fun x =>
          match x with
          | ActionResult.ok s _ => s.results
          | ActionResult.err _ => []) hok
        simpa using this.symm
      rw [hres]
      exact runMoves_results_align opts (validMovesOf moves) st store

/-- Witness for C2: a batch with one conflicted entry, one empty-target
entry and one valid entry produces exactly one per-entry result, for the
valid entry. -/
theorem executeMoves_per_entry_results_witness :
    ((executeMoves
        [⟨1, "a", "C:/src/a", "C:/org/py/a", "py", ["No theme assigned"], []⟩,
         ⟨2, "b", "C:/src/b", "", "", [], []⟩,
         ⟨3, "c", "C:/src/c", "C:/org/py/c", "py", [], []⟩]
        DEFAULT_MOVE_OPTIONS ["C:/src/c"] []).1.isOk = true) ∧
    (∀ (summary : MoveSummary) (msg : Option String),
      (executeMoves
        [⟨1, "a", "C:/src/a", "C:/org/py/a", "py", ["No theme assigned"], []⟩,
         ⟨2, "b", "C:/src/b", "", "", [], []⟩,
         ⟨3, "c", "C:/src/c", "C:/org/py/c", "py", [], []⟩]
        DEFAULT_MOVE_OPTIONS ["C:/src/c"] []).1 = .ok summary msg →
      summary.results.map (fun r => (r.repoId, r.repoName, r.fromPath, r.toPath)) =
        [(3, "c", "C:/src/c", "C:/org/py/c")]) := by
  constructor
  · exact (executeMoves_per_entry_results _ _ _ _).1.mpr (by decide)
  · intro summary msg hok
    have := (executeMoves_per_entry_results _ _ _ _).2 summary msg hok
    rw [this]
    rfl

/-- C8 (amended): for a batch whose filtered valid entries are non-empty the
overall result is always success-shaped, whatever the per-entry outcomes —
even when every attempted entry failed; the only failure-shaped outcome is
the empty filtered batch (plus exceptions escaping the handler, outside this
model). -/
theorem executeMoves_success_shape (moves : List MovePreview) (opts : MoveOptions)
    (st : List String) (store : List Repository) :
    (validMovesOf moves ≠ [] → (executeMoves moves opts st store).1.isOk = true) ∧
    (validMovesOf moves = [] →
      (executeMoves moves opts st store).1 =
        .err "No valid moves to execute. Resolve conflicts first.") := by
  constructor
  · intro hne
    simp only [executeMoves]
    rw [if_neg (fun h => hne (List.isEmpty_iff.mp h))]
    rfl
  · intro hnil
    simp only [executeMoves]
    rw [if_pos (List.isEmpty_iff.mpr hnil)]

/-- Witness for C8 at concrete batches: a valid singleton is success-shaped,
an all-conflicted batch errors. -/
theorem executeMoves_success_shape_witness :
    (executeMoves [⟨1, "a", "C:/src/a", "C:/org/py/a", "py", [], []⟩]
        DEFAULT_MOVE_OPTIONS ["C:/src/a"] []).1.isOk = true ∧
    (executeMoves [⟨1, "a", "C:/src/a", "", "", ["No theme assigned"], []⟩]
        DEFAULT_MOVE_OPTIONS [] []).1 =
      .err "No valid moves to execute. Resolve conflicts first." := by
  exact ⟨(executeMoves_success_shape _ _ _ _).1 (by decide),
         (executeMoves_success_shape _ _ _ _).2 (by decide)⟩

/-- C8 (counterexample): a non-empty valid batch in which every attempted
entry failed (the lone source is missing) is still reported success-shaped
with `successful = 0, failed = 1`, refuting the claim that "all attempted
entries failed" is reported as an overall failure. -/
theorem executeMoves_all_failed_still_ok :
    (executeMoves [⟨1, "a", "C:/src/a", "C:/org/py/a", "py", [], []⟩]
        DEFAULT_MOVE_OPTIONS [] []).1 =
      .ok ⟨0, 1, [⟨false, 1, "a", "C:/src/a", "C:/org/py/a",
                    some "Source directory not found"⟩]⟩
        (some "Moved 0 repositories, 1 failed") := by
  decide

/-! The `physicalPath` / `triageStatus` invariant (spec §3). -/

/-- The spec invariant on one record: `physicalPath` is non-null iff
`triageStatus = "auto"`. -/
abbrev repoInv (r : Repository) : Prop :=
  r.physicalPath.isSome = true ↔ r.triageStatus = .auto

/-- The spec invariant over a whole store. -/
abbrev storeInv (store : List Repository) : Prop := ∀ r ∈ store, repoInv r

theorem processScanResults_inv (results : List RepoScanResult) :
    ∀ (pathMap : List (String × Nat)) (store : List Repository),
      storeInv store → storeInv (processScanResults pathMap store results).1 := by
  induction results with
  | nil => intro pathMap store h; exact h
  | cons res rest ih =>
    intro pathMap store h
    simp only [processScanResults]
    cases pathMap.lookup (normLower res.path) with
    | some j =>
      apply ih
      intro r' hr'
      rw [List.mem_map] at hr'
      obtain ⟨r, hr, hfr⟩ := hr'
      subst hfr
      by_cases hid : r.id = j
      · rw [if_pos hid]
        have := h r hr
        simpa [updateExisting] using this
      · rw [if_neg hid]; exact h r hr
    | none =>
      apply ih
      intro r' hr'
      rw [List.mem_append] at hr'
      rcases hr' with hr' | hr'
      · exact h r' hr'
      · rw [List.mem_singleton] at hr'
        subst hr'
        exact Iff.intro (fun hx => nomatch hx) (fun hx => nomatch hx)

theorem stepMove_inv (opts : MoveOptions) (st : List String) (store : List Repository)
    (m : MovePreview) : storeInv store → storeInv (stepMove opts st store m).2.1 := by
  intro h
  simp only [stepMove]
  split
  · exact h
  split
  · exact h
  split
  · exact h
  · intro r' hr'
    rw [List.mem_map] at hr'
    obtain ⟨r, hr, hfr⟩ := hr'
    subst hfr
    by_cases hid : r.id = m.repoId
    · rw [if_pos hid]; exact ⟨fun _ => rfl, fun _ => rfl⟩
    · rw [if_neg hid]; exact h r hr

theorem runMoves_inv (opts : MoveOptions) :
    ∀ (valid : List MovePreview) (st : List String) (store : List Repository),
      storeInv store → storeInv (runMoves opts valid st store).2.1 := by
  intro valid
  induction valid with
  | nil => intro st store h; exact h
  | cons m rest ih =>
    intro st store h
    simp only [runMoves]
    exact ih _ _ (stepMove_inv opts st store m h)

/-- C4 (amended): the scan upsert and the move executor preserve the
`physicalPath`-iff-`auto` invariant unconditionally (creation seeds
`physicalPath = null, triageStatus = "pending"`; a successful move sets both
fields together), but `setTriageStatus` and `assignTheme` do not touch
`physicalPath`, so they preserve the invariant only under a side condition:
`setTriageStatus` only when the new status agrees with the record's
`physicalPath` (auto iff non-null), and `assignTheme` (which forces
`triageStatus = "manual"`) only for records with null `physicalPath`.
Applied to an already-moved record they break the biconditional. -/
theorem physicalPath_auto_invariant :
    (∀ (store : List Repository) (results : List RepoScanResult),
      storeInv store → storeInv (triggerScanUpsert store results).1) ∧
    (∀ (moves : List MovePreview) (opts : MoveOptions) (st : List String)
        (store : List Repository),
      storeInv store → storeInv (executeMoves moves opts st store).2.2.1) ∧
    (∀ (store : List Repository) (repoId : Nat) (status : TriageStatus),
      storeInv store →
      (∀ r ∈ store, r.id = repoId → (r.physicalPath.isSome = true ↔ status = .auto)) →
      storeInv (setTriageStatus store repoId status).2) ∧
    (∀ (store : List Repository) (repoId : Nat) (theme : String),
      storeInv store →
      (∀ r ∈ store, r.id = repoId → r.physicalPath = none) →
      storeInv (assignTheme store repoId theme).2) := by
  refine ⟨?_, ?_, ?_, ?_⟩
  · intro store results h
    exact processScanResults_inv results _ store h
  · intro moves opts st store h
    simp only [executeMoves]
    split
    · exact h
    · exact runMoves_inv opts _ st store h
  · intro store repoId status h hagree
    simp only [setTriageStatus]
    cases store.find? fun r => r.id = repoId with
    | none => exact h
    | some r0 =>
      intro r' hr'
      rw [List.mem_map] at hr'
      obtain ⟨r, hr, hfr⟩ := hr'
      subst hfr
      by_cases hid : r.id = repoId
      · rw [if_pos hid]
        simpa using hagree r hr hid
      · rw [if_neg hid]; exact h r hr
  · intro store repoId theme h hnone
    simp only [assignTheme]
    split
    · exact h
    · cases store.find? fun r => r.id = repoId with
      | none => exact h
      | some r0 =>
        intro r' hr'
        rw [List.mem_map] at hr'
        obtain ⟨r, hr, hfr⟩ := hr'
        subst hfr
        by_cases hid : r.id = repoId
        · rw [if_pos hid]
          have hpp := hnone r hr hid
          refine Iff.intro (fun hx => ?_) (fun hx => nomatch hx)
          have hx' : r.physicalPath.isSome = true := hx
          rw [hpp] at hx'
          exact nomatch hx'
        · rw [if_neg hid]; exact h r hr

/-- Witness for C4: the preservation conjuncts applied to concrete stores —
an upsert creating one record, a status change that agrees with the null
`physicalPath`, and a theme assignment on an unmoved record. -/
theorem physicalPath_auto_invariant_witness :
    storeInv (triggerScanUpsert [] [⟨"a", "C:/src/a", none, none, false, "python"⟩]).1 ∧
    storeInv (setTriageStatus
      [⟨1, "a", "c:/src/a", none, none, none, false, some "py", .pending⟩] 1 .ignored).2 ∧
    storeInv (assignTheme
      [⟨1, "a", "c:/src/a", none, none, none, false, none, .pending⟩] 1 "py").2 := by
  refine ⟨?_, ?_, ?_⟩
  · exact physicalPath_auto_invariant.1 [] _ (by decide)
  · exact physicalPath_auto_invariant.2.2.1 _ 1 .ignored (by decide) (by decide)
  · exact physicalPath_auto_invariant.2.2.2 _ 1 "py" (by decide) (by decide)

/-- C4 (counterexample): `setTriageStatus` does not touch `physicalPath`,
so moving an already-organized record (non-null `physicalPath`,
`triageStatus = "auto"`) to `"ignored"` leaves the two fields disagreeing —
the claim that every public write preserves the biconditional is false. -/
theorem setTriageStatus_breaks_invariant :
    storeInv [⟨1, "a", "c:/src/a", some "c:/org/py/a", none, none, false,
      some "py", .auto⟩] ∧
    ¬ storeInv (setTriageStatus
      [⟨1, "a", "c:/src/a", some "c:/org/py/a", none, none, false, some "py", .auto⟩]
      1 .ignored).2 := by
  exact ⟨by decide, by decide⟩

/-! Move planner (src/lib/actions/triage.ts `generateMovePreview`).  The
`getExistingPaths` enumeration of `root/theme/repo` directories is
filesystem input and is passed in as the set contents (already normalized
and lower-cased, as the source stores them). -/

/-- The per-repository loop of `generateMovePreview`: a repository with a
falsy theme yields the blocking "No theme assigned" entry; otherwise the
target is `root/theme/name`, dirty and cross-drive warnings are collected,
a case-insensitive collision with the working set is resolved by suffixing
(adding a path-conflict warning), and the final target is added to the
working set so later batch entries see it.  A suffix-exhaustion throw
propagates as `Except.error`. -/
def previewLoop (root : String) :
    List Repository → List String → Except String (List MovePreview)
  | [], _ => .ok []
  | r :: rest, existing =>
    if ¬ jsTruthy r.theme then
      match previewLoop root rest existing with
      | .error e => .error e
      | .ok tail => .ok (⟨r.id, r.name, r.originalPath, "", "", ["No theme assigned"], []⟩ :: tail)
    else
      let theme := r.theme.getD ""
      let targetPath := joinPaths [joinPaths [root, theme], r.name]
      let sourcePath := if jsTruthy r.physicalPath then r.physicalPath.getD "" else r.originalPath
      let warnings :=
        (if r.isDirty then ["Repository has uncommitted changes"] else []) ++
        (if ¬ isSameDrive sourcePath targetPath then ["Cross-drive move (will copy and delete)"]
         else [])
      if existing.contains (normLower targetPath) then
        match generateConflictFreePath targetPath existing with
        | .error e => .error e
        | .ok newPath =>
          match previewLoop root rest (existing ++ [normLower newPath]) with
          | .error e => .error e
          | .ok tail =>
            .ok (⟨r.id, r.name, sourcePath, newPath, theme, [],
                  warnings ++ ["Path conflict: will use " ++ getRepoNameFromPath newPath]⟩ :: tail)
      else
        match previewLoop root rest (existing ++ [normLower targetPath]) with
        | .error e => .error e
        | .ok tail =>
          .ok (⟨r.id, r.name, sourcePath, targetPath, theme, [], warnings⟩ :: tail)

/-- Source `generateMovePreview` (src/lib/actions/triage.ts): fail when no
organization root is configured; select the requested records with
`findMany({ id: { in: repoIds } })` (ids with no record are simply absent);
fail when none are found; otherwise build the preview entries, turning a
thrown suffix-exhaustion error into a failure result (the outer catch). -/
def generateMovePreview (root : Option String) (store : List Repository)
    (existingPaths : List String) (repoIds : List Nat) :
    ActionResult (List MovePreview) :=
  if ¬ jsTruthy root then .err "Organization root not configured. Update Settings first."
  else
    let repos := store.filter fun r => repoIds.contains r.id
    if repos.isEmpty then .err "No repositories found"
    else
      match previewLoop (root.getD "") repos existingPaths with
      | .error e => .err e
      | .ok previews => .ok previews none

theorem previewLoop_align (root : String) :
    ∀ (repos : List Repository) (existing : List String) (previews : List MovePreview),
      previewLoop root repos existing = .ok previews →
      List.Forall₂ (fun (p : MovePreview) (r : Repository) =>
          p.repoId = r.id ∧ p.repoName = r.name ∧
          (jsTruthy r.theme = false → p.toPath = "" ∧ p.conflicts = ["No theme assigned"]) ∧
          (jsTruthy r.theme = true → p.conflicts = [] ∧ p.theme = r.theme.getD ""))
        previews repos := by
  intro repos
  induction repos with
  | nil =>
    intro existing previews h
    simp only [previewLoop] at h
    cases h
    exact List.Forall₂.nil
  | cons r rest ih =>
    intro existing previews h
    simp only [previewLoop] at h
    split at h
    · -- no-theme entry
      split at h
      · exact nomatch h
      case _ tail heq =>
        cases h
        refine List.Forall₂.cons ?_ (ih _ _ heq)
        have hfalse : jsTruthy r.theme = false := by
          rename_i hcond _
          simpa using hcond
        exact ⟨rfl, rfl, fun _ => ⟨rfl, rfl⟩, fun htr => absurd htr (by simp [hfalse])⟩
    · -- themed entry
      have htrue : jsTruthy r.theme = true := by
        rename_i hcond
        simpa using hcond
      split at h
      · -- collision: suffix then recurse
        split at h
        · exact nomatch h
        split at h
        · exact nomatch h
        case _ newPath _ tail heq =>
          cases h
          refine List.Forall₂.cons ?_ (ih _ _ heq)
          exact ⟨rfl, rfl, fun hf => absurd hf (by simp [htrue]), fun _ => ⟨rfl, rfl⟩⟩
      · -- no collision
        split at h
        · exact nomatch h
        case _ tail heq =>
          cases h
          refine List.Forall₂.cons ?_ (ih _ _ heq)
          exact ⟨rfl, rfl, fun hf => absurd hf (by simp [htrue]), fun _ => ⟨rfl, rfl⟩⟩

/-- C3 (amended): when an organization root is configured, a successful
preview contains exactly one entry, in store order, for every requested id
that is FOUND in the store — a found record with a falsy theme yields an
empty-target entry with the blocking "No theme assigned" conflict and a
themed record a conflict-free entry — but requested ids with no record are
silently omitted (the `findMany` lookup drops them), and when none of the
requested ids is found the call fails with "No repositories found". -/
theorem generateMovePreview_entries_match :
    (∀ (root : Option String) (store : List Repository) (existingPaths : List String)
      (repoIds : List Nat) (previews : List MovePreview) (msg : Option String),
      generateMovePreview root store existingPaths repoIds = .ok previews msg →
      List.Forall₂ (fun (p : MovePreview) (r : Repository) =>
          p.repoId = r.id ∧ p.repoName = r.name ∧
          (jsTruthy r.theme = false → p.toPath = "" ∧ p.conflicts = ["No theme assigned"]) ∧
          (jsTruthy r.theme = true → p.conflicts = [] ∧ p.theme = r.theme.getD ""))
        previews (store.filter fun r => repoIds.contains r.id)) ∧
    (∀ (root : Option String) (store : List Repository) (existingPaths : List String)
      (repoIds : List Nat),
      jsTruthy root = true →
      (store.filter fun r => repoIds.contains r.id) = [] →
      generateMovePreview root store existingPaths repoIds = .err "No repositories found") := by
  constructor
  · intro root store existingPaths repoIds previews msg h
    simp only [generateMovePreview] at h
    split at h
    · exact nomatch h
    split at h
    · exact nomatch h
    split at h
    · exact nomatch h
    case _ heq =>
      cases h
      exact previewLoop_align _ _ _ _ heq
  · intro root store existingPaths repoIds hroot hempty
    simp only [generateMovePreview]
    rw [if_neg (by simp [hroot])]
    rw [if_pos (List.isEmpty_iff.mpr hempty)]

/-- Witness for C3 at a concrete store: one found themed id yields exactly
its entry; an unknown id alone fails with "No repositories found". -/
theorem generateMovePreview_entries_match_witness :
    List.Forall₂ (fun (p : MovePreview) (r : Repository) =>
        p.repoId = r.id ∧ p.repoName = r.name ∧
        (jsTruthy r.theme = false → p.toPath = "" ∧ p.conflicts = ["No theme assigned"]) ∧
        (jsTruthy r.theme = true → p.conflicts = [] ∧ p.theme = r.theme.getD ""))
      [⟨1, "a", "C:/src/a", "C:/org/python/a", "python", [], []⟩]
      ([⟨1, "a", "C:/src/a", none, none, none, false, some "python", .pending⟩].filter
        fun r => [1].contains r.id) ∧
    generateMovePreview (some "C:/org")
      [⟨1, "a", "C:/src/a", none, none, none, false, some "python", .pending⟩] [] [2] =
      .err "No repositories found" := by
  constructor
  · exact generateMovePreview_entries_match.1 (some "C:/org")
      [⟨1, "a", "C:/src/a", none, none, none, false, some "python", .pending⟩] [] [1]
      [⟨1, "a", "C:/src/a", "C:/org/python/a", "python", [], []⟩] none (by decide)
  · exact generateMovePreview_entries_match.2 (some "C:/org")
      [⟨1, "a", "C:/src/a", none, none, none, false, some "python", .pending⟩] [] [2]
      (by decide) (by decide)

/-- C3 (counterexample): with one themed record (id 1) in the store, a
preview request for ids 1 and 2 returns a single entry — requested id 2,
which has no record, yields no entry at all (neither a target nor a
blocking conflict), refuting "exactly one entry per requested id". -/
theorem generateMovePreview_omits_missing_ids :
    generateMovePreview (some "C:/org")
      [⟨1, "a", "C:/src/a", none, none, none, false, some "python", .pending⟩] [] [1, 2] =
      .ok [⟨1, "a", "C:/src/a", "C:/org/python/a", "python", [], []⟩] none := by
  decide

/-! Discovery walker (`findGitRepos`, the richer git utility module in
src/unnamed/part_002).  The filesystem is the `FsNode` tree type; a
directory's `FsEntries` order is the `readdir` listing order. -/

/-- Whether a `withFileTypes` entry is a directory (`entry.isDirectory()`;
false for files and for symbolic links). -/
def isDirNode : FsNode → Bool
  | .dir _ => true
  | _ => false

/-- Source `shouldSkipDirectory`: the fixed noise-directory set. -/
def shouldSkipDirectory (name : String) : Bool :=
  ["node_modules", "vendor", ".cache", "__pycache__", ".venv", "venv", "env",
   ".env", "dist", "build", "out", "target", ".next", ".nuxt", ".output",
   "coverage"].contains name

/-- Modelled from the spec (the path module exporting it is not among the
source files): `normalizeForFs` canonicalizes separators to forward slashes,
preserving a leading UNC double separator. -/
def normalizeForFs (p : String) : String := normalizeWindowsPath p

/-- Collapse runs of FORWARD slashes only (`.replace(/\/+/g, '/')` in the
walker, unlike the `[/\\]+` class of `joinPaths`). -/
def collapseFwdSlashes : List Char → List Char
  | [] => []
  | [c] => [c]
  | c :: d :: t =>
    if c = '/' && d = '/' then collapseFwdSlashes (d :: t)
    else c :: collapseFwdSlashes (d :: t)

/-- Child-path construction of the walker: `current.path + '/' + entry.name`
with duplicate slashes removed and the leading `//` restored for UNC
paths. -/
def joinChild (p name : String) : String :=
  let full := p ++ "/" ++ name
  let isUNC := jsStartsWith full "//"
  let collapsed : String := ⟨collapseFwdSlashes full.toList⟩
  if isUNC then "/" ++ collapsed else collapsed

/-- The entry loop of `findGitRepos` for one directory listing: skip
non-directories; on a `.git` directory yield the parent and stop (the
`break`), discarding the remaining entries; skip hidden and noise
directories; queue everything else.  Returns the children to enqueue (in
listing order) and whether the parent is yielded. -/
def scanEntries (p : String) : FsEntries → List (String × FsNode) × Bool
  | .nil => ([], false)
  | .cons name node rest =>
    if ¬ isDirNode node then scanEntries p rest
    else if name = ".git" then ([], true)
    else if jsStartsWith name "." then scanEntries p rest
    else if shouldSkipDirectory name then scanEntries p rest
    else
      let out := scanEntries p rest
      ((joinChild p name, node) :: out.1, out.2)

/-- The breadth-first queue loop of `findGitRepos`.  The structural `fuel`
only bounds the loop for Lean; the top level supplies enough for the finite
tree, one unit per dequeue.  Entries beyond `maxDepth` are dropped
unexpanded; a queued path that is not a directory is skipped (the `readdir`
failure path). -/
def walkAux (maxDepth : Nat) : Nat → List (String × FsNode × Nat) → List String
  | 0, _ => []
  | _ + 1, [] => []
  | fuel + 1, (p, node, d) :: rest =>
    if d > maxDepth then walkAux maxDepth fuel rest
    else
      match node with
      | .dir entries =>
        let out := scanEntries p entries
        let queued := out.1.map fun q => (q.1, q.2, d + 1)
        if out.2 then p :: walkAux maxDepth fuel (rest ++ queued)
        else walkAux maxDepth fuel (rest ++ queued)
      | _ => walkAux maxDepth fuel rest

mutual
/-- Node count of a tree, used to bound the walker's queue loop. -/
def nodeSize : FsNode → Nat
  | .dir es => 1 + entriesSize es
  | _ => 1

/-- Total node count of a directory's entries. -/
def entriesSize : FsEntries → Nat
  | .nil => 0
  | .cons _ n rest => 1 + nodeSize n + entriesSize rest
end

/-- Source `findGitRepos` (breadth-first, `.git` stops descent, depth
bound 5 by default): the lazily yielded paths collected in yield order. -/
def findGitRepos (tree : FsNode) (directory : String) (maxDepth : Nat) : List String :=
  walkAux maxDepth (nodeSize tree + 1) [(normalizeForFs directory, tree, 0)]

/-- Whether a listing contains a `.git` directory entry. -/
def hasGitEntry : FsEntries → Bool
  | .nil => false
  | .cons name node rest => (isDirNode node && name == ".git") || hasGitEntry rest

/-- A repository whose listing puts a subdirectory `a` BEFORE the `.git`
marker (readdir order is filesystem-dependent), with `a` itself a
repository. -/
def nestedRepoTree : FsNode :=
  .dir (.cons "a" (.dir (.cons ".git" (.dir .nil) .nil))
    (.cons ".git" (.dir .nil) .nil))

/-- The same repository with `.git` listed first (the common ASCII readdir
order). -/
def gitFirstTree : FsNode :=
  .dir (.cons ".git" (.dir .nil)
    (.cons "a" (.dir (.cons ".git" (.dir .nil) .nil)) .nil))

/-- C9 (amended): a visited directory is yielded exactly when its listing
holds a `.git` directory entry (and then exactly once per visit); entries
after the marker are discarded by the `break`, so when `.git` is the first
listed entry nothing beneath the repository is ever enqueued — but entries
listed BEFORE the marker have already been queued, so the walker does
descend into a discovered repository whenever a directory entry precedes
`.git` in the listing. -/
theorem scanEntries_yield_eq (p : String) :
    ∀ es : FsEntries, (scanEntries p es).2 = hasGitEntry es
  | .nil => rfl
  | .cons name node rest => by
    have ih := scanEntries_yield_eq p rest
    simp only [scanEntries, hasGitEntry]
    by_cases hdir : isDirNode node = true
    · rw [if_neg (by simp [hdir])]
      by_cases hgit : name = ".git"
      · rw [if_pos hgit]
        have hbeq : (name == ".git") = true := by simp [hgit]
        simp [hdir, hbeq]
      · rw [if_neg hgit]
        have hbeq : (name == ".git") = false := by simp [hgit]
        simp only [hbeq, hdir, Bool.and_false, Bool.false_or]
        split
        · exact ih
        split
        · exact ih
        · exact ih
    · rw [if_pos (by simpa using hdir)]
      have hnd : isDirNode node = false := by simpa using hdir
      simp [hnd, ih]

theorem findGitRepos_marker_behavior :
    (∀ (p : String) (es : FsEntries), (scanEntries p es).2 = hasGitEntry es) ∧
    (∀ (p name : String) (node : FsNode) (rest : FsEntries),
      isDirNode node = true → name = ".git" →
      scanEntries p (.cons name node rest) = ([], true)) ∧
    findGitRepos gitFirstTree "r" 5 = ["r"] := by
  refine ⟨scanEntries_yield_eq, ?_, by decide⟩
  intro p name node rest hdir hgit
  simp only [scanEntries]
  rw [if_neg (by simp [hdir]), if_pos hgit]

/-- Witness for C9: the marker step at a concrete listing — a `.git`
directory entry at the head yields the parent and enqueues nothing. -/
theorem findGitRepos_marker_behavior_witness :
    scanEntries "r" (.cons ".git" (.dir .nil) (.cons "a" (.dir .nil) .nil)) = ([], true) :=
  findGitRepos_marker_behavior.2.1 "r" ".git" (.dir .nil)
    (.cons "a" (.dir .nil) .nil) rfl rfl

/-- C9 (counterexample): when the listing of a repository places
subdirectory `a` before the `.git` marker, `a` is enqueued before the
`break`, so the walker expands and even yields `r/a` — a subdirectory of the
already-yielded repository `r` — refuting "no descent into a discovered
repository, regardless of the order in which the directory's entries are
listed". -/
theorem findGitRepos_descends_into_repo :
    findGitRepos nestedRepoTree "r" 5 = ["r", "r/a"] ∧
    jsStartsWith "r/a" ("r" ++ "/") = true := by
  exact ⟨by decide, by decide⟩

end Gitmaster
